import Mathlib

/-!
Shallow embedding of the zenithanalitica/data-pipeline ingestion pipeline
(src/json.rs, src/app.rs, src/db.rs) and proofs about its specification.

Conventions of the embedding:
* Rust machine integers that only ever count lines/records are modelled as
  Nat (the counts are small and never overflow in the source's domain).
* Timestamps are carried as their rfc3339 string rendering, which is what
  prepare_batch_parameters ships to the store.
* A line of an input file is a String; serde decoding is an explicit
  function parameter (String to Option Tweet), since serde is an external
  crate: the pipeline only branches on whether decoding succeeded.
-/

/-- Substring containment, the semantics of Rust's str::contains:
some index offers the pattern as a prefix of the remaining characters. -/
def strContains (s pat : String) : Bool :=
  (List.range (s.data.length + 1)).any fun i => pat.data.isPrefixOf (s.data.drop i)

/-- Author snapshot embedded in a decoded record (struct User in src/json.rs). -/
structure User where
  id_str : String
  screen_name : String
  location : Option String
  verified : Bool
  followers_count : Int
  friends_count : Int
  listed_count : Option Int
  favourites_count : Int
  statuses_count : Int
  created_at : String
  utc_offset : Option Int
deriving DecidableEq

/-- Entities of a decoded record (struct Entity in src/json.rs). -/
structure Entity where
  hashtags : List String
  user_mentions : List String
deriving DecidableEq

/-- A decoded record (struct Tweet in src/json.rs). -/
structure Tweet where
  created_at : String
  id_str : String
  text : String
  user : User
  reply_to : Option String
  lang : String
  entities : Entity
  is_retweet : Bool
deriving DecidableEq

/-- The tombstone test of src/json.rs line 61: content.contains on the raw line. -/
def isDeleteLine (content : String) : Bool :=
  strContains content "\"delete\":"

/-- The re-share test of src/json.rs line 68: content.contains on the raw line. -/
def isRetweetLine (content : String) : Bool :=
  strContains content "\"retweeted_status\":"

/-- One iteration of the read_lines loop of parse_file (src/json.rs 58-78).
The accumulator is (tweets, deleted, tweet_num, retweet_num). -/
def parseFileStep (decode : String → Option Tweet)
    (acc : List Tweet × Nat × Nat × Nat) (content : String) :
    List Tweet × Nat × Nat × Nat :=
  let tweets := acc.1
  let deleted := acc.2.1
  let tweet_num := acc.2.2.1 + 1
  let retweet_num := acc.2.2.2
  if isDeleteLine content then
    (tweets, deleted + 1, tweet_num, retweet_num)
  else
    match decode content with
    | some tweet =>
      if isRetweetLine content then
        (tweets ++ [{ tweet with is_retweet := true }], deleted, tweet_num, retweet_num + 1)
      else
        (tweets ++ [tweet], deleted, tweet_num, retweet_num)
    | none => (tweets, deleted, tweet_num, retweet_num)

/-- parse_file of src/json.rs: fold the loop body over the file's lines,
returning (tweets, deleted, tweet_num, retweet_num). -/
def parse_file (decode : String → Option Tweet) (lines : List String) :
    List Tweet × Nat × Nat × Nat :=
  lines.foldl (parseFileStep decode) ([], 0, 0, 0)

/-- The record a kept line contributes to parse_file's output: skip tombstones
before decoding, decode, then set the re-share flag from the raw line. -/
def keptRecord (decode : String → Option Tweet) (content : String) : Option Tweet :=
  if isDeleteLine content then none
  else
    match decode content with
    | some tweet =>
      if isRetweetLine content then some { tweet with is_retweet := true }
      else some tweet
    | none => none

/-- A line that is kept, decodes, and carries the re-share marker. -/
def isCountedRetweet (decode : String → Option Tweet) (content : String) : Bool :=
  !isDeleteLine content && (decode content).isSome && isRetweetLine content

/-- A line that is kept but fails structural decode (logged and skipped). -/
def isMalformedLine (decode : String → Option Tweet) (content : String) : Bool :=
  !isDeleteLine content && !(decode content).isSome

/-! ## The write path (src/db.rs) -/

/-- The per-record parameter map built by prepare_batch_parameters
(src/db.rs 242-307).  The source builds a HashMap from field name to
neo4rs::BoltType; since the key set is fixed, the map is embedded as a
typed structure with one field per inserted key. -/
structure TweetParams where
  id : String
  text : String
  created_at : String
  reply_to : Option String
  lang : String
  hashtags : List String
  user_mentions : List String
  userId : String
  userName : String
  userLocation : Option String
  userVerified : Bool
  userFollowersCount : Int
  userFriendsCount : Int
  userListedCount : Option Int
  userFavouritesCount : Int
  userStatusesCount : Int
  userCreatedAt : String
  userUtcOffset : Option Int
deriving DecidableEq

/-- prepare_batch_parameters of src/db.rs: one parameter map per record. -/
def prepare_batch_parameters (chunk_vec : List Tweet) : List TweetParams :=
  chunk_vec.map fun tweet =>
    { id := tweet.id_str
      text := tweet.text
      created_at := tweet.created_at
      reply_to := tweet.reply_to
      lang := tweet.lang
      hashtags := tweet.entities.hashtags
      user_mentions := tweet.entities.user_mentions
      userId := tweet.user.id_str
      userName := tweet.user.screen_name
      userLocation := tweet.user.location
      userVerified := tweet.user.verified
      userFollowersCount := tweet.user.followers_count
      userFriendsCount := tweet.user.friends_count
      userListedCount := tweet.user.listed_count
      userFavouritesCount := tweet.user.favourites_count
      userStatusesCount := tweet.user.statuses_count
      userCreatedAt := tweet.user.created_at
      userUtcOffset := tweet.user.utc_offset }

/-- Properties stored on a Tweet node by the SET clause of the query in
run_insert_with_txn (src/db.rs 148-155). -/
structure TweetProps where
  text : String
  created_at : String
  reply_to : Option String
  lang : String
  hashtags : List String
  user_mentions : List String
deriving DecidableEq

/-- Properties stored on a User node by the ON CREATE SET clause of the query
in run_insert_with_txn (src/db.rs 156-167). -/
structure UserProps where
  name : String
  location : Option String
  verified : Bool
  followers_count : Int
  friends_count : Int
  listed_count : Option Int
  favourites_count : Int
  statuses_count : Int
  created_at : String
  utc_offset : Option Int
deriving DecidableEq

/-- The Tweet-node properties a parameter row writes. -/
def tweetPropsOf (r : TweetParams) : TweetProps :=
  { text := r.text
    created_at := r.created_at
    reply_to := r.reply_to
    lang := r.lang
    hashtags := r.hashtags
    user_mentions := r.user_mentions }

/-- The User-node properties a parameter row writes on creation. -/
def userPropsOf (r : TweetParams) : UserProps :=
  { name := r.userName
    location := r.userLocation
    verified := r.userVerified
    followers_count := r.userFollowersCount
    friends_count := r.userFriendsCount
    listed_count := r.userListedCount
    favourites_count := r.userFavouritesCount
    statuses_count := r.userStatusesCount
    created_at := r.userCreatedAt
    utc_offset := r.userUtcOffset }

/-- State of the graph store: Tweet nodes, User nodes (each an association
list from node key to properties, so duplicate-keyed nodes are representable
and their absence is provable), and POSTED_BY edges as
(tweet id, user id) pairs. -/
structure GraphState where
  tweets : List (String × TweetProps)
  users : List (String × UserProps)
  posted_by : List (String × String)
deriving DecidableEq

/-- The graph store with no nodes and no edges. -/
def GraphState.empty : GraphState := { tweets := [], users := [], posted_by := [] }

/-- Modelled from the spec: MERGE ... SET semantics of the store (an external
collaborator reached over the network).  MERGE on the node key followed by
SET: if a node with the key exists it is updated in place, otherwise a new
node is created; SET overwrites the properties unconditionally. -/
def upsertAssoc {β : Type} (l : List (String × β)) (k : String) (v : β) :
    List (String × β) :=
  if l.any fun p => decide (p.1 = k) then
    l.map fun p => if p.1 = k then (k, v) else p
  else l ++ [(k, v)]

/-- Modelled from the spec: MERGE ... ON CREATE SET semantics of the store.
If a node with the key exists nothing changes; otherwise the node is created
with the given properties (set-on-create). -/
def mergeOnCreate {β : Type} (l : List (String × β)) (k : String) (v : β) :
    List (String × β) :=
  if l.any fun p => decide (p.1 = k) then l else l ++ [(k, v)]

/-- Effect of one UNWIND row of the query in run_insert_with_txn
(src/db.rs 146-169): MERGE (t:Tweet {id}) SET ..., MERGE (u:User {id})
ON CREATE SET ..., CREATE (t)-[POSTED_BY]-(u).  CREATE always appends a
fresh edge. -/
def applyRow (g : GraphState) (row : TweetParams) : GraphState :=
  { tweets := upsertAssoc g.tweets row.id (tweetPropsOf row)
    users := mergeOnCreate g.users row.userId (userPropsOf row)
    posted_by := g.posted_by ++ [(row.id, row.userId)] }

/-- run_insert_with_txn of src/db.rs: the whole batch is one transaction
executing the query once per UNWIND row, in row order. -/
def run_insert_with_txn (g : GraphState) (batch : List TweetParams) : GraphState :=
  batch.foldl applyRow g

/-- The node keys of an association list of nodes. -/
def keysOf {β : Type} (l : List (String × β)) : List String := l.map Prod.fst

/-- The last parameter row of a batch carrying the given tweet id. -/
def lastRowT (b : List TweetParams) (k : String) : Option TweetParams :=
  b.reverse.find? fun r => decide (r.id = k)

/-- The first parameter row of a batch carrying the given user id. -/
def firstRowU (b : List TweetParams) (k : String) : Option TweetParams :=
  b.find? fun r => decide (r.userId = k)

/-! ## The retry controller (src/db.rs 84-115)

The backoff crate is an external collaborator; its loop is modelled from the
spec contract: initial delay 100 ms, multiplicative growth 2, per-attempt cap
10 s, and a total elapsed-time budget of 60 s after which retries stop.  Time
is in milliseconds; elapsed time accumulates the backoff sleeps. -/

/-- initial_interval of the ExponentialBackoff in src/db.rs line 85, in ms. -/
def initial_interval : Nat := 100

/-- max_interval of the ExponentialBackoff in src/db.rs line 86, in ms. -/
def max_interval : Nat := 10000

/-- max_elapsed_time of the ExponentialBackoff in src/db.rs line 88, in ms. -/
def max_elapsed_time : Nat := 60000

/-- The backoff sleep before retry attempt n+1: the initial interval grown by
the multiplier once per prior retry, capped at max_interval. -/
def backoffDelay (n : Nat) : Nat :=
  min (initial_interval * 2 ^ n) max_interval

/-- Total backoff sleep accumulated before attempt n (attempts numbered
from 0). -/
def elapsedBefore : Nat → Nat
  | 0 => 0
  | n + 1 => elapsedBefore n + backoffDelay n

/-- is_deadlock_error of src/db.rs 126-134: substring tests against the
Debug rendering of the store error, which the embedding carries as the
String itself. -/
def is_deadlock_error (error : String) : Bool :=
  strContains error "DeadlockDetected"
    || strContains error "TransactionTerminatedException"
    || strContains error "concurrent access"
    || strContains error "deadlock"

/-- Terminal outcome of one batch's retry loop. -/
inductive RetryResult
  | success
  | permanent (e : String)
  | exhausted (e : String)
deriving DecidableEq

/-- The retry loop of src/db.rs 93-107 running from attempt n, where
o k is the outcome of attempt k (none = the transaction committed,
some e = it failed with error e).  Returns (number of the first unattempted
attempt, i.e. total attempts when started at 0, terminal outcome).
A failure is retried only if is_deadlock_error matches it and the elapsed
budget is not yet exceeded. -/
def runFrom (o : Nat → Option String) (n : Nat) : Nat × RetryResult :=
  match o n with
  | none => (n + 1, RetryResult.success)
  | some e =>
    if is_deadlock_error e then
      if h2 : elapsedBefore n ≤ max_elapsed_time then runFrom o (n + 1)
      else (n + 1, RetryResult.exhausted e)
    else (n + 1, RetryResult.permanent e)
termination_by 60001 - elapsedBefore n
decreasing_by
  simp only [elapsedBefore]
  have h100 : 100 ≤ backoffDelay n := by
    have h1 : (1 : Nat) ≤ 2 ^ n := Nat.one_le_two_pow
    have h2 : 100 ≤ 100 * 2 ^ n := le_mul_of_one_le_right (by omega) h1
    simp only [backoffDelay, initial_interval, max_interval]
    omega
  simp only [max_elapsed_time] at h2
  omega

/-- The full retry execution of one batch: attempts start at 0. -/
def retryBatch (o : Nat → Option String) : Nat × RetryResult := runFrom o 0

/-! ## The writer and dispatcher (src/db.rs 62-123, src/app.rs) -/

/-- batch_size of src/db.rs line 67. -/
def batch_size : Nat := 500

/-- max_concurrent_batches of src/db.rs line 68. -/
def max_concurrent_batches : Nat := 8

/-- Fuel-driven worker for chunks: emits b elements at a time (b assumed
positive, as Rust's slice::chunks requires). -/
def chunksGo {α : Type} (b : Nat) : Nat → List α → List (List α)
  | 0, _ => []
  | _, [] => []
  | fuel + 1, x :: xs => (x :: xs.take (b - 1)) :: chunksGo b fuel (xs.drop (b - 1))

/-- tweets.chunks(batch_size) of src/db.rs line 74: consecutive slices of
size b, the last possibly shorter.  The fuel (the list length) dominates the
number of chunks because every chunk consumes at least one element. -/
def chunks {α : Type} (b : Nat) (l : List α) : List (List α) :=
  chunksGo b l.length l

/-- insert_new_tweets of src/db.rs 62-123, with the store outcomes supplied
as a parameter: attemptOutcome i k is the outcome of attempt k of batch i.
A batch whose retry loop ends in success applies its transaction to the
graph exactly once; a failed batch leaves the graph unchanged (its
transaction never committed) and never touches anything but the graph. -/
def insert_new_tweets (attemptOutcome : Nat → Nat → Option String)
    (g : GraphState) (tweets : List Tweet) : GraphState :=
  (chunks batch_size tweets).enum.foldl
    (fun gAcc p =>
      match (retryBatch (attemptOutcome p.1)).2 with
      | RetryResult.success => run_insert_with_txn gAcc (prepare_batch_parameters p.2)
      | _ => gAcc)
    g

/-- The three global statistics counters owned by App (src/app.rs 10-15). -/
structure AppCounters where
  tweet_count : Nat
  deletet_tweet_count : Nat
  retweet_count : Nat
deriving DecidableEq

/-- App::parse_files of src/app.rs 62-97: decode every file, collect the
per-file record lists, and sum the per-file counters into the global ones.
The parallel scheduling merges each per-file triple exactly once under a
mutex; the embedding records the file-order sum, and the claims quantify
over reorderings. -/
def parse_files (decode : String → Option Tweet) (files : List (List String)) :
    List (List Tweet) × AppCounters :=
  let results := files.map fun file => parse_file decode file
  (results.map fun r => r.1,
   { tweet_count := (results.map fun r => r.2.2.1).sum
     deletet_tweet_count := (results.map fun r => r.2.1).sum
     retweet_count := (results.map fun r => r.2.2.2).sum })

/-- The decode-then-write pipeline of App::run (src/app.rs 36-48): counters
are produced by parse_files, then every file's records go through
insert_new_tweets, which threads only the graph state.
attemptOutcome f i k is the outcome of attempt k of batch i of file f. -/
def App.runPipeline (decode : String → Option Tweet)
    (attemptOutcome : Nat → Nat → Nat → Option String)
    (files : List (List String)) (g : GraphState) : AppCounters × GraphState :=
  let res := parse_files decode files
  (res.2,
   res.1.enum.foldl (fun gAcc p => insert_new_tweets (attemptOutcome p.1) gAcc p.2) g)

/-! ## The concurrency limiter (src/db.rs 68-80)

The tokio counting semaphore is an external collaborator; its semantics is
modelled from the spec: acquire suspends until fewer than c permits are
taken, release returns a permit.  A state records how many batch
transactions hold a permit (are in flight). -/

/-- Number of batch transactions currently holding a semaphore permit. -/
structure SemState where
  inFlight : Nat
deriving DecidableEq

/-- Transitions of the writer pool guarded by Semaphore::new(c): a batch
task may acquire only while fewer than c are in flight, and may release
while at least one is. -/
inductive SemStep (c : Nat) : SemState → SemState → Prop
  | acquire (s : SemState) (h : s.inFlight < c) : SemStep c s ⟨s.inFlight + 1⟩
  | release (s : SemState) (h : 0 < s.inFlight) : SemStep c s ⟨s.inFlight - 1⟩

/-- States reachable from the idle pool (no batch in flight). -/
inductive SemReachable (c : Nat) : SemState → Prop
  | init : SemReachable c ⟨0⟩
  | step {s t : SemState} : SemReachable c s → SemStep c s t → SemReachable c t

/-! ## Process exit behaviour (src/app.rs 18-60, src/json.rs 51, 60) -/

/-- How the process terminates. -/
inductive ExitOutcome
  | exitZero
  | exitNonZero
  | panicked (msg : String)
deriving DecidableEq

/-- Environment of one run of App::run (configuration loading happens
earlier, in App::default, and is outside this run).  Each input file is none
when File::open fails, otherwise its lines, each line none when it is not
valid UTF-8 (both are unwrapped in src/json.rs 51 and 60).  writeConnectOk
is true when every Graph::new connection opened by the write phase succeeds
(insert_new_tweets unwraps one per call, src/db.rs 63-65).  The three
post-load derivation queries are unwrapped in src/app.rs 50-58. -/
structure RunEnv where
  prepareOk : Bool
  files : List (Option (List (Option String)))
  writeConnectOk : Bool
  repliesOk : Bool
  mentionsOk : Bool
  airlineLabelsOk : Bool

/-- Exit behaviour of App::run, following the order of src/app.rs 18-60:
non-zero when prepare_database fails (exit(1) at src/app.rs 22-27, or the
unwrap inside prepare_database itself; both end the process non-zero); then
a panic when any file fails to open or any line fails UTF-8 conversion
(unwraps inside the rayon workers of parse_files, which propagate to the
caller); then a panic when a write-phase Graph::new connection fails (the
unwrap of src/db.rs 63-65 inside insert_new_tweets); then a panic when any
post-load derivation query fails (the unwraps of src/app.rs 50-58);
otherwise exit 0.  writeOk gives each batch write's success and is threaded
to show that a failed or retried batch cannot influence the exit. -/
def App.runExit (env : RunEnv) (writeOk : Nat → Bool) : ExitOutcome :=
  if !env.prepareOk then ExitOutcome.exitNonZero
  else if env.files.any fun f => f.isNone then ExitOutcome.panicked "file open failed"
  else if env.files.any (fun f => (f.getD []).any fun l => l.isNone) then
    ExitOutcome.panicked "invalid utf8 line"
  else
    let _ := writeOk
    if !env.writeConnectOk then ExitOutcome.panicked "write-phase store connection failed"
    else if !env.repliesOk then ExitOutcome.panicked "replies derivation failed"
    else if !env.mentionsOk then ExitOutcome.panicked "mentions derivation failed"
    else if !env.airlineLabelsOk then ExitOutcome.panicked "airline labels failed"
    else ExitOutcome.exitZero

/-! ## Concrete sample values used by witnesses and counterexamples -/

/-- A concrete author snapshot. -/
def sampleUser : User :=
  { id_str := "u1"
    screen_name := "alice"
    location := none
    verified := false
    followers_count := 10
    friends_count := 5
    listed_count := none
    favourites_count := 2
    statuses_count := 7
    created_at := "2019-05-23T14:54:46+00:00"
    utc_offset := none }

/-- A concrete decoded record. -/
def sampleTweet : Tweet :=
  { created_at := "2019-05-23T15:00:00+00:00"
    id_str := "t1"
    text := "hello world"
    user := sampleUser
    reply_to := none
    lang := "en"
    entities := { hashtags := ["h"], user_mentions := ["u2"] }
    is_retweet := false }

/-- Attempt outcomes where every attempt fails with a non-transient error. -/
def oPermanent : Nat → Option String := fun _ => some "boom"

/-- Attempt outcomes where every attempt fails with a transient deadlock. -/
def oTransient : Nat → Option String := fun _ => some "DeadlockDetected"

/-- A decoder used by the C10 witness: structurally valid exactly on the two
lines of the witness file, including the tombstone-marked one. -/
def witnessDecode : String → Option Tweet := fun l =>
  if l = "\"delete\": 1" then some sampleTweet
  else if l = "plain" then some sampleTweet
  else none


/-- Run environment exercising an unreadable input file while the store is
reachable and everything else succeeds. -/
def badEnv : RunEnv :=
  { prepareOk := true
    files := [none]
    writeConnectOk := true
    repliesOk := true
    mentionsOk := true
    airlineLabelsOk := true }

/-- Run environment where startup, every file, every line, every write-phase
connection, and every post-load query succeed. -/
def goodEnv : RunEnv :=
  { prepareOk := true
    files := [some [some "x"], some []]
    writeConnectOk := true
    repliesOk := true
    mentionsOk := true
    airlineLabelsOk := true }


/-- Key lookup in an association list of nodes (first match wins, as the
store resolves a MERGE against a unique-keyed node set). -/
def lookupKey {β : Type} (x : String) : List (String × β) → Option β
  | [] => none
  | p :: ps => if p.1 = x then some p.2 else lookupKey x ps

/-- Fold of keyed MERGE-SET upserts over the rows of a batch, extracting the
key and written value from each row; the tweets component of
run_insert_with_txn is this fold. -/
def upsertFold {β : Type} (key : TweetParams → String) (val : TweetParams → β)
    (t : List (String × β)) (b : List TweetParams) : List (String × β) :=
  b.foldl (fun acc r => upsertAssoc acc (key r) (val r)) t

/-- Fold of keyed MERGE-ON-CREATE merges over the rows of a batch; the users
component of run_insert_with_txn is this fold. -/
def mergeFold {β : Type} (key : TweetParams → String) (val : TweetParams → β)
    (u : List (String × β)) (b : List TweetParams) : List (String × β) :=
  b.foldl (fun acc r => mergeOnCreate acc (key r) (val r)) u

/-- Per-entry effect of replaying a batch over an entry: each row whose key
matches overwrites the entry's value. -/
def rowUpd {β : Type} (key : TweetParams → String) (val : TweetParams → β)
    (b : List TweetParams) (p : String × β) : String × β :=
  b.foldl (fun q r => if q.1 = key r then (key r, val r) else q) p

/-- The last row of a batch with the given key (the write that wins for
always-SET fields). -/
def lastRowBy (key : TweetParams → String) (b : List TweetParams) (x : String) :
    Option TweetParams :=
  b.reverse.find? fun r => decide (key r = x)

/-- The first row of a batch with the given key (the write that wins for
set-on-create fields). -/
def firstRowBy (key : TweetParams → String) (b : List TweetParams) (x : String) :
    Option TweetParams :=
  b.find? fun r => decide (key r = x)


/-! # Proofs -/

/-! ## Decoder lemmas (src/json.rs) -/

/-- Closed-form characterization of the parse_file fold: kept records are the
filterMap of keptRecord, and the three counters count tombstone lines, all
lines, and counted re-shares respectively. -/
theorem parse_file_foldl_char (decode : String → Option Tweet)
    (lines : List String) (acc : List Tweet × Nat × Nat × Nat) :
    lines.foldl (parseFileStep decode) acc =
      (acc.1 ++ lines.filterMap (keptRecord decode),
       acc.2.1 + lines.countP (fun l => isDeleteLine l),
       acc.2.2.1 + lines.length,
       acc.2.2.2 + lines.countP (isCountedRetweet decode)) := by
  induction lines generalizing acc with
  | nil => simp
  | cons x xs ih =>
    obtain ⟨tw, d, tn, rn⟩ := acc
    rw [List.foldl_cons, ih]
    simp only [parseFileStep, keptRecord, isCountedRetweet, List.filterMap_cons,
      List.countP_cons, List.length_cons]
    by_cases hd : isDeleteLine x
    · simp [hd]
      omega
    · simp only [hd, if_false, Bool.not_false, Bool.true_and]
      cases hdec : decode x with
      | none => simp [hd]; omega
      | some t =>
        by_cases hrt : isRetweetLine x
        · simp [hd, hrt]
          omega
        · simp [hd, hrt]
          omega

/-- The kept lines are exactly the non-tombstone lines that decode. -/
theorem length_filterMap_keptRecord (decode : String → Option Tweet)
    (lines : List String) :
    (lines.filterMap (keptRecord decode)).length =
      lines.countP fun l => !isDeleteLine l && (decode l).isSome := by
  induction lines with
  | nil => simp
  | cons x xs ih =>
    simp only [List.filterMap_cons, List.countP_cons, keptRecord]
    by_cases hd : isDeleteLine x
    · simp [hd, ih]
    · cases hdec : decode x with
      | none => simp [hd, hdec, ih]
      | some t =>
        by_cases hrt : isRetweetLine x <;> simp [hd, hdec, hrt, ih]

/-- Every line is a tombstone, a successfully decoded line, or malformed. -/
theorem count_line_partition (decode : String → Option Tweet)
    (lines : List String) :
    lines.countP (fun l => isDeleteLine l)
      + lines.countP (fun l => !isDeleteLine l && (decode l).isSome)
      + lines.countP (isMalformedLine decode) = lines.length := by
  induction lines with
  | nil => simp
  | cons x xs ih =>
    simp only [List.countP_cons, List.length_cons, isMalformedLine]
    by_cases hd : isDeleteLine x
    · simp [hd]; omega
    · by_cases hs : (decode x).isSome = true <;> simp [hd, hs] <;> omega

/-- C4: for every input file, parse_file's total-line counter equals the
number of returned Records plus the deleted counter plus the number of lines
that failed structural decode (the Decoder's accounting identity). -/
theorem c4_decoder_accounting (decode : String → Option Tweet)
    (lines : List String) :
    (parse_file decode lines).2.2.1 =
      (parse_file decode lines).1.length + (parse_file decode lines).2.1
        + lines.countP (isMalformedLine decode) := by
  rw [parse_file, parse_file_foldl_char]
  simp only [Nat.zero_add, List.nil_append]
  rw [length_filterMap_keptRecord]
  have := count_line_partition decode lines
  omega

/-- Lines are classified before any decode: on a non-tombstone line the two
decoders agree, so the whole parse agrees (the decoder is never consulted on
a tombstone line). -/
theorem parse_file_decode_irrelevant_on_tombstones
    (decode decode' : String → Option Tweet) (lines : List String)
    (h : ∀ l ∈ lines, isDeleteLine l = false → decode l = decode' l) :
    parse_file decode lines = parse_file decode' lines := by
  rw [parse_file, parse_file, parse_file_foldl_char, parse_file_foldl_char]
  have hkept : lines.filterMap (keptRecord decode) =
      lines.filterMap (keptRecord decode') := by
    apply List.filterMap_congr
    intro l hl
    by_cases hd : isDeleteLine l
    · simp [keptRecord, hd]
    · simp only [keptRecord, hd, if_false]
      rw [h l hl (by simp [hd])]
  have hrt : lines.countP (isCountedRetweet decode) =
      lines.countP (isCountedRetweet decode') := by
    apply List.countP_congr
    intro l hl
    by_cases hd : isDeleteLine l
    · simp [isCountedRetweet, hd]
    · simp only [isCountedRetweet, hd]
      rw [h l hl (by simp [hd])]
  rw [hkept, hrt]

/-- C10: tombstone and re-share classification is raw substring containment
over the whole line: the deleted counter counts exactly the lines containing
the substring (quote)delete(quote)(colon) anywhere, such lines are skipped
without consulting the decoder (so two decoders agreeing off tombstone lines
parse identically, and a structurally valid post whose text contains the
marker is discarded), the kept records are exactly the decodable
non-tombstone lines with the re-share flag forced to true exactly when the
raw line contains (quote)retweeted_status(quote)(colon), and the re-share
counter counts exactly those decodable lines. -/
theorem c10_raw_substring_classification
    (decode decode' : String → Option Tweet) (lines : List String)
    (h : ∀ l ∈ lines, isDeleteLine l = false → decode l = decode' l) :
    parse_file decode lines =
      (lines.filterMap (keptRecord decode),
       lines.countP (fun l => isDeleteLine l),
       lines.length,
       lines.countP (isCountedRetweet decode)) ∧
    parse_file decode lines = parse_file decode' lines := by
  constructor
  · rw [parse_file, parse_file_foldl_char]
    simp
  · exact parse_file_decode_irrelevant_on_tombstones decode decode' lines h

/-- Witness for C10 at a concrete two-line file: the first line is a
tombstone (and even decodes successfully, yet is discarded), the second is a
plain kept record. -/
theorem c10_raw_substring_classification_witness :
    parse_file witnessDecode
        ["\"delete\": 1", "plain"] =
      (["\"delete\": 1", "plain"].filterMap
         (keptRecord witnessDecode),
       ["\"delete\": 1", "plain"].countP
         (fun l => isDeleteLine l),
       ["\"delete\": 1", "plain"].length,
       ["\"delete\": 1", "plain"].countP
         (isCountedRetweet witnessDecode)) ∧
    parse_file witnessDecode
        ["\"delete\": 1", "plain"] =
      parse_file witnessDecode
        ["\"delete\": 1", "plain"] :=
  c10_raw_substring_classification witnessDecode witnessDecode
    ["\"delete\": 1", "plain"]
    (fun _ _ _ => rfl)

/-! ## Dispatcher lemmas (src/app.rs) -/

/-- The three counters parse_file returns for one file, as countP/length of
that file's lines. -/
theorem parse_file_counters (decode : String → Option Tweet) (file : List String) :
    (parse_file decode file).2.2.1 = file.length ∧
    (parse_file decode file).2.1 = file.countP (fun l => isDeleteLine l) ∧
    (parse_file decode file).2.2.2 = file.countP (isCountedRetweet decode) := by
  rw [parse_file, parse_file_foldl_char]
  simp

/-- C5: merging the per-file counters in any task-scheduling order yields the
same global totals as processing the files in file order, and those totals
equal the counters of one single-threaded sequential scan of all lines
(parse_file over the concatenation); the global counters are literally the
sums of the per-file counts. -/
theorem c5_merge_order_invariant (decode : String → Option Tweet)
    (files schedule : List (List String)) (hperm : files.Perm schedule) :
    (parse_files decode schedule).2 = (parse_files decode files).2 ∧
    (parse_files decode files).2.tweet_count = (parse_file decode files.flatten).2.2.1 ∧
    (parse_files decode files).2.deletet_tweet_count = (parse_file decode files.flatten).2.1 ∧
    (parse_files decode files).2.retweet_count = (parse_file decode files.flatten).2.2.2 ∧
    (parse_files decode files).2.tweet_count =
      (files.map fun f => (parse_file decode f).2.2.1).sum ∧
    (parse_files decode files).2.deletet_tweet_count =
      (files.map fun f => (parse_file decode f).2.1).sum ∧
    (parse_files decode files).2.retweet_count =
      (files.map fun f => (parse_file decode f).2.2.2).sum := by
  have hsum : ∀ (g : List String → Nat),
      (schedule.map g).sum = (files.map g).sum :=
    fun g => ((hperm.map g).sum_eq).symm
  have hflat := parse_file_counters decode files.flatten
  refine ⟨?_, ?_, ?_, ?_, ?_, ?_, ?_⟩
  · simp only [parse_files, AppCounters.mk.injEq, List.map_map]
    exact ⟨hsum _, hsum _, hsum _⟩
  · rw [hflat.1]
    simp only [parse_files, List.map_map, List.length_flatten]
    congr 1
    apply List.map_congr_left
    intro f _
    exact (parse_file_counters decode f).1
  · rw [hflat.2.1]
    simp only [parse_files, List.map_map, List.countP_flatten]
    congr 1
    apply List.map_congr_left
    intro f _
    exact (parse_file_counters decode f).2.1
  · rw [hflat.2.2]
    simp only [parse_files, List.map_map, List.countP_flatten]
    congr 1
    apply List.map_congr_left
    intro f _
    exact (parse_file_counters decode f).2.2
  · rw [parse_files]
    simp only [List.map_map]
    rfl
  · rw [parse_files]
    simp only [List.map_map]
    rfl
  · rw [parse_files]
    simp only [List.map_map]
    rfl

/-- Witness for C5: two concrete one-line files in swapped schedule order. -/
theorem c5_merge_order_invariant_witness :
    (parse_files witnessDecode [["plain"], ["x"]]).2 =
      (parse_files witnessDecode [["x"], ["plain"]]).2 :=
  (c5_merge_order_invariant witnessDecode [["x"], ["plain"]] [["plain"], ["x"]]
    (List.Perm.swap ["plain"] ["x"] [])).1

/-! ## Frame property of the write path -/

/-- C6: the global statistics counters are produced only during decode: the
pipeline's counters equal parse_files' counters for every choice of
per-batch/per-attempt write outcomes and every starting graph, so no
transaction attempt, transient failure, retry, or batch outcome modifies any
counter, and a batch retried N times contributes to the counters exactly as
one written once. -/
theorem c6_counters_decode_only (decode : String → Option Tweet)
    (files : List (List String)) (g g' : GraphState)
    (attemptOutcome attemptOutcome' : Nat → Nat → Nat → Option String) :
    (App.runPipeline decode attemptOutcome files g).1 =
      (parse_files decode files).2 ∧
    (App.runPipeline decode attemptOutcome files g).1 =
      (App.runPipeline decode attemptOutcome' files g').1 :=
  ⟨rfl, rfl⟩

/-! ## Batch planner lemmas (src/db.rs 67, 74) -/

/-- chunksGo on the empty list is empty, whatever the fuel. -/
theorem chunksGo_nil {α : Type} (b fuel : Nat) :
    chunksGo (α := α) b fuel [] = [] := by
  cases fuel <;> rfl

/-- With enough fuel, concatenating the chunks gives back the input. -/
theorem chunksGo_flatten {α : Type} (b : Nat) (hb : 0 < b) :
    ∀ (fuel : Nat) (l : List α), l.length ≤ fuel →
      (chunksGo b fuel l).flatten = l := by
  intro fuel
  induction fuel with
  | zero =>
    intro l hl
    have : l = [] := List.length_eq_zero.mp (Nat.le_zero.mp hl)
    simp [this, chunksGo]
  | succ fuel ih =>
    intro l hl
    cases l with
    | nil => simp [chunksGo]
    | cons x xs =>
      have hdrop : (xs.drop (b - 1)).length ≤ fuel := by
        simp only [List.length_drop]
        simp only [List.length_cons] at hl
        omega
      simp only [chunksGo, List.flatten_cons, ih _ hdrop]
      rw [List.cons_append, List.take_append_drop]

/-- Every chunk has at most b elements. -/
theorem chunksGo_le {α : Type} (b : Nat) (hb : 0 < b) :
    ∀ (fuel : Nat) (l : List α) (c : List α), c ∈ chunksGo b fuel l →
      c.length ≤ b := by
  intro fuel
  induction fuel with
  | zero => intro l c hc; simp [chunksGo] at hc
  | succ fuel ih =>
    intro l c hc
    cases l with
    | nil => simp [chunksGo] at hc
    | cons x xs =>
      simp only [chunksGo, List.mem_cons] at hc
      rcases hc with hc | hc
      · subst hc
        simp only [List.length_cons, List.length_take]
        omega
      · exact ih _ _ hc

/-- Every chunk except possibly the last has exactly b elements. -/
theorem chunksGo_eq_b {α : Type} (b : Nat) (hb : 0 < b) :
    ∀ (fuel : Nat) (l : List α) (i : Nat), l.length ≤ fuel →
      i + 1 < (chunksGo b fuel l).length →
      ((chunksGo b fuel l).getD i []).length = b := by
  intro fuel
  induction fuel with
  | zero => intro l i _ hi; simp [chunksGo] at hi
  | succ fuel ih =>
    intro l i hl hi
    cases l with
    | nil => simp [chunksGo] at hi
    | cons x xs =>
      have hdrop : (xs.drop (b - 1)).length ≤ fuel := by
        simp only [List.length_drop]
        simp only [List.length_cons] at hl
        omega
      cases i with
      | zero =>
        simp only [chunksGo, List.length_cons] at hi
        have hne : chunksGo b fuel (xs.drop (b - 1)) ≠ [] := by
          intro hemp
          rw [hemp] at hi
          simp at hi
        have hxs : b - 1 < xs.length := by
          by_contra hge
          push_neg at hge
          have : xs.drop (b - 1) = [] := List.drop_eq_nil_of_le hge
          rw [this, chunksGo_nil] at hne
          exact hne rfl
        simp only [chunksGo, List.getD_cons_zero, List.length_cons, List.length_take]
        omega
      | succ j =>
        simp only [chunksGo, List.getD_cons_succ]
        apply ih _ _ hdrop
        simp only [chunksGo, List.length_cons] at hi
        omega

/-- C7: for every Record sequence, the Batch Planner (chunks with fixed
batch_size = 500) yields batches of at most 500 Records whose in-order
concatenation is the input, and every batch except possibly the last has
exactly 500 Records; the slicing is a pure function of the input. -/
theorem c7_batch_planner (tweets : List Tweet) :
    (chunks batch_size tweets).flatten = tweets ∧
    (∀ c ∈ chunks batch_size tweets, c.length ≤ batch_size) ∧
    (∀ i, i + 1 < (chunks batch_size tweets).length →
      ((chunks batch_size tweets).getD i []).length = batch_size) := by
  refine ⟨?_, ?_, ?_⟩
  · exact chunksGo_flatten batch_size (by decide) tweets.length tweets le_rfl
  · intro c hc
    exact chunksGo_le batch_size (by decide) tweets.length tweets c hc
  · intro i hi
    exact chunksGo_eq_b batch_size (by decide) tweets.length tweets i le_rfl hi

set_option maxRecDepth 8000 in
/-- The planner on 501 concrete records: one full batch of 500 and a final
batch of 1. -/
theorem chunks_sample_501 :
    chunks batch_size (List.replicate 501 sampleTweet) =
      [List.replicate 500 sampleTweet, [sampleTweet]] := by
  rfl

/-- Witness for C7 at a concrete 501-record input: the concatenation
property, the bound on the first batch, and the exactly-500 property of the
non-final batch. -/
theorem c7_batch_planner_witness :
    (chunks batch_size (List.replicate 501 sampleTweet)).flatten =
      List.replicate 501 sampleTweet ∧
    (List.replicate 500 sampleTweet).length ≤ batch_size ∧
    ((chunks batch_size (List.replicate 501 sampleTweet)).getD 0 []).length =
      batch_size := by
  refine ⟨(c7_batch_planner (List.replicate 501 sampleTweet)).1, ?_, ?_⟩
  · apply (c7_batch_planner (List.replicate 501 sampleTweet)).2.1
    rw [chunks_sample_501]
    exact List.mem_cons_self _ _
  · apply (c7_batch_planner (List.replicate 501 sampleTweet)).2.2
    rw [chunks_sample_501]
    decide

/-! ## Retry controller lemmas (src/db.rs 84-115, 126-134) -/

/-- A committed attempt ends the loop with success. -/
theorem runFrom_success (o : Nat → Option String) (n : Nat) (h : o n = none) :
    runFrom o n = (n + 1, RetryResult.success) := by
  rw [runFrom, h]

/-- A failure whose signature does not match the transient pattern ends the
loop immediately as permanent. -/
theorem runFrom_permanent (o : Nat → Option String) (n : Nat) (e : String)
    (h : o n = some e) (hd : is_deadlock_error e = false) :
    runFrom o n = (n + 1, RetryResult.permanent e) := by
  rw [runFrom, h]
  simp [hd]

/-- A transient failure within the elapsed budget continues with the next
attempt. -/
theorem runFrom_retry_step (o : Nat → Option String) (n : Nat) (e : String)
    (h : o n = some e) (hd : is_deadlock_error e = true)
    (hb : elapsedBefore n ≤ max_elapsed_time) :
    runFrom o n = runFrom o (n + 1) := by
  rw [runFrom, h]
  simp [hd, dif_pos hb]

/-- A transient failure past the elapsed budget ends the loop as exhausted. -/
theorem runFrom_exhausted (o : Nat → Option String) (n : Nat) (e : String)
    (h : o n = some e) (hd : is_deadlock_error e = true)
    (hb : ¬elapsedBefore n ≤ max_elapsed_time) :
    runFrom o n = (n + 1, RetryResult.exhausted e) := by
  rw [runFrom, h]
  simp [hd, dif_neg hb]

/-- The loop always performs the attempt it starts at. -/
theorem runFrom_fst_ge (o : Nat → Option String) (n : Nat) :
    n + 1 ≤ (runFrom o n).1 := by
  induction n using runFrom.induct (o := o) with
  | case1 n h => rw [runFrom_success o n h]
  | case2 n e h hd hb ih =>
    rw [runFrom_retry_step o n e h hd hb]
    omega
  | case3 n e h hd hb => rw [runFrom_exhausted o n e h hd hb]
  | case4 n e h hd =>
    rw [runFrom_permanent o n e h (Bool.not_eq_true _ ▸ hd)]

/-- Accumulated backoff sleep is monotone in the attempt number. -/
theorem elapsedBefore_mono {m n : Nat} (h : m ≤ n) :
    elapsedBefore m ≤ elapsedBefore n := by
  induction n with
  | zero => simp_all
  | succ n ih =>
    rcases Nat.lt_or_ge m (n + 1) with hlt | hge
    · have := ih (by omega)
      simp only [elapsedBefore]
      omega
    · have : m = n + 1 := by omega
      subst this
      exact le_rfl

/-- An attempt within budget can only be one of the first twelve: from
attempt 12 on, the accumulated sleeps already exceed 60 s. -/
theorem within_budget_le_11 {n : Nat}
    (hb : elapsedBefore n ≤ max_elapsed_time) : n ≤ 11 := by
  by_contra hgt
  push_neg at hgt
  have h12 : elapsedBefore 12 ≤ elapsedBefore n := elapsedBefore_mono (by omega)
  have : elapsedBefore 12 = 62700 := by decide
  simp only [max_elapsed_time] at hb
  omega

/-- The loop never issues more than 13 attempts, whatever the outcomes. -/
theorem runFrom_fst_le (o : Nat → Option String) (n : Nat) :
    (runFrom o n).1 ≤ max (n + 1) 13 := by
  induction n using runFrom.induct (o := o) with
  | case1 n h =>
    rw [runFrom_success o n h]
    simp
  | case2 n e h hd hb ih =>
    rw [runFrom_retry_step o n e h hd hb]
    have hn : n ≤ 11 := within_budget_le_11 hb
    omega
  | case3 n e h hd hb =>
    rw [runFrom_exhausted o n e h hd hb]
    simp
  | case4 n e h hd =>
    rw [runFrom_permanent o n e h (Bool.not_eq_true _ ▸ hd)]
    simp

/-- C2: for every batch attempt, the controller retries if and only if the
failure's signature matches the transient deadlock/conflict pattern of
is_deadlock_error (and budget remains): a non-matching failure ends the loop
at once as permanent, with zero further attempts beyond the failing one,
while a matching failure within budget makes the loop continue into attempt
n + 1. -/
theorem c2_retry_iff_transient (o : Nat → Option String) (n : Nat) (e : String)
    (h : o n = some e) :
    (is_deadlock_error e = false →
      runFrom o n = (n + 1, RetryResult.permanent e)) ∧
    (is_deadlock_error e = true → elapsedBefore n ≤ max_elapsed_time →
      runFrom o n = runFrom o (n + 1) ∧ n + 2 ≤ (runFrom o n).1) := by
  refine ⟨fun hd => runFrom_permanent o n e h hd, fun hd hb => ?_⟩
  rw [runFrom_retry_step o n e h hd hb]
  exact ⟨rfl, runFrom_fst_ge o (n + 1)⟩

/-- Witness for C2: a first attempt failing with a non-transient error stops
the loop after exactly one attempt, classified permanent; a first attempt
failing with a deadlock signature retries. -/
theorem c2_retry_iff_transient_witness :
    runFrom oPermanent 0 = (1, RetryResult.permanent "boom") ∧
    (runFrom oTransient 0 = runFrom oTransient 1 ∧ 2 ≤ (runFrom oTransient 0).1) :=
  ⟨(c2_retry_iff_transient oPermanent 0 "boom" rfl).1 (by decide),
   (c2_retry_iff_transient oTransient 0 "DeadlockDetected" rfl).2 (by decide)
     (by decide)⟩

/-- C3: the backoff delay sequence is non-decreasing and capped by
max_interval (10 s, growing by factor 2 from 100 ms), the loop never issues
more than 13 attempts even if every failure is transient, and once the
elapsed budget (60 s) is exceeded the loop stops issuing attempts: the
current attempt is its last. -/
theorem c3_backoff_monotone_and_terminates (o : Nat → Option String) (n : Nat) :
    backoffDelay n ≤ backoffDelay (n + 1) ∧
    backoffDelay n ≤ max_interval ∧
    (retryBatch o).1 ≤ 13 ∧
    (max_elapsed_time < elapsedBefore n → (runFrom o n).1 = n + 1) := by
  refine ⟨?_, ?_, ?_, ?_⟩
  · apply min_le_min _ le_rfl
    apply Nat.mul_le_mul_left
    exact Nat.pow_le_pow_right (by omega) (by omega)
  · exact min_le_right _ _
  · have := runFrom_fst_le o 0
    simp only [retryBatch]
    omega
  · intro hb
    cases hoc : o n with
    | none => rw [runFrom_success o n hoc]
    | some e =>
      by_cases hd : is_deadlock_error e
      · rw [runFrom_exhausted o n e hoc hd (by omega)]
      · rw [runFrom_permanent o n e hoc (by simpa using hd)]

/-- Witness for C3: with every attempt failing transiently, at attempt 13 the
accumulated sleeps (72.7 s) exceed the budget and the loop stops there. -/
theorem c3_backoff_monotone_and_terminates_witness :
    (runFrom oTransient 13).1 = 13 + 1 :=
  (c3_backoff_monotone_and_terminates oTransient 13).2.2.2 (by decide)

/-! ## Concurrency limiter (src/db.rs 68-80) -/

/-- C8: with the counting semaphore of size c guarding every batch
transaction, every reachable state of the writer pool has at most c batch
transactions in flight; in particular at most 8 with the configured
max_concurrent_batches, and with c = 1 never two concurrently. -/
theorem c8_at_most_c_in_flight (c : Nat) (s : SemState)
    (h : SemReachable c s) :
    s.inFlight ≤ c ∧
    (c = max_concurrent_batches → s.inFlight ≤ 8) ∧
    (c = 1 → s.inFlight ≤ 1) := by
  have hinv : s.inFlight ≤ c := by
    induction h with
    | init => exact Nat.zero_le c
    | step hr hs ih =>
      cases hs with
      | acquire h => exact h
      | release h => exact Nat.le_trans (Nat.sub_le _ _) ih
  refine ⟨hinv, fun hc => ?_, fun hc => ?_⟩
  · rw [hc] at hinv
    simpa [max_concurrent_batches] using hinv
  · omega

/-- Witness for C8: one batch holding the permit after one acquire from the
idle pool of size max_concurrent_batches. -/
theorem c8_at_most_c_in_flight_witness :
    (⟨1⟩ : SemState).inFlight ≤ max_concurrent_batches :=
  (c8_at_most_c_in_flight max_concurrent_batches ⟨1⟩
    (SemReachable.step SemReachable.init
      (SemStep.acquire ⟨0⟩ (by decide)))).1

/-! ## Process exit behaviour (src/app.rs, src/json.rs) -/

/-- C9 counterexample: with the store reachable at startup but one input
file unreadable, the run does not exit zero (File::open(..).unwrap() in
parse_file panics and the rayon worker propagates it), contradicting the
claim that a file failure is recovered locally and the process exits zero
whenever the store was reachable. -/
theorem c9_counterexample :
    badEnv.prepareOk = true ∧
    App.runExit badEnv (fun _ => true) ≠ ExitOutcome.exitZero := by
  decide

/-- C9 amended: exit is independent of batch write outcomes; an unreachable
store at startup exits non-zero; but the process also terminates abnormally
(panic, hence non-zero) when an input file cannot be opened, when a line is
not valid UTF-8, when a write-phase store connection fails, or when any of
the three post-load derivation queries fails; and the run exits zero if and
only if startup, every file open, every line, every write-phase connection,
and all three post-load queries succeed, for any pattern of batch write
failures. -/
theorem c9_exit_policy (env : RunEnv) (w w1 : Nat → Bool) :
    App.runExit env w = App.runExit env w1 ∧
    (env.prepareOk = false → App.runExit env w = ExitOutcome.exitNonZero) ∧
    (env.prepareOk = true → env.files.any (fun f => f.isNone) = true →
      App.runExit env w = ExitOutcome.panicked "file open failed") ∧
    (env.prepareOk = true → env.files.any (fun f => f.isNone) = false →
      env.files.any (fun f => (f.getD []).any fun l => l.isNone) = true →
      App.runExit env w = ExitOutcome.panicked "invalid utf8 line") ∧
    (env.prepareOk = true → env.files.any (fun f => f.isNone) = false →
      env.files.any (fun f => (f.getD []).any fun l => l.isNone) = false →
      env.writeConnectOk = false →
      App.runExit env w = ExitOutcome.panicked "write-phase store connection failed") ∧
    (env.prepareOk = true → env.files.any (fun f => f.isNone) = false →
      env.files.any (fun f => (f.getD []).any fun l => l.isNone) = false →
      env.writeConnectOk = true → env.repliesOk = false →
      App.runExit env w = ExitOutcome.panicked "replies derivation failed") ∧
    (env.prepareOk = true → env.files.any (fun f => f.isNone) = false →
      env.files.any (fun f => (f.getD []).any fun l => l.isNone) = false →
      env.writeConnectOk = true → env.repliesOk = true → env.mentionsOk = false →
      App.runExit env w = ExitOutcome.panicked "mentions derivation failed") ∧
    (env.prepareOk = true → env.files.any (fun f => f.isNone) = false →
      env.files.any (fun f => (f.getD []).any fun l => l.isNone) = false →
      env.writeConnectOk = true → env.repliesOk = true → env.mentionsOk = true →
      env.airlineLabelsOk = false →
      App.runExit env w = ExitOutcome.panicked "airline labels failed") ∧
    (App.runExit env w = ExitOutcome.exitZero ↔
      env.prepareOk = true ∧
      env.files.any (fun f => f.isNone) = false ∧
      env.files.any (fun f => (f.getD []).any fun l => l.isNone) = false ∧
      env.writeConnectOk = true ∧ env.repliesOk = true ∧
      env.mentionsOk = true ∧ env.airlineLabelsOk = true) := by
  refine ⟨rfl, fun hp => ?_, fun hp hf => ?_, fun hp hf hl => ?_,
    fun hp hf hl hw => ?_, fun hp hf hl hw hr => ?_,
    fun hp hf hl hw hr hm => ?_, fun hp hf hl hw hr hm ha => ?_, ?_⟩
  · simp [App.runExit, hp]
  · simp [App.runExit, hp, hf]
  · simp [App.runExit, hp, hf, hl]
  · simp [App.runExit, hp, hf, hl, hw]
  · simp [App.runExit, hp, hf, hl, hw, hr]
  · simp [App.runExit, hp, hf, hl, hw, hr, hm]
  · simp [App.runExit, hp, hf, hl, hw, hr, hm, ha]
  · constructor
    · intro hz
      by_cases hp : env.prepareOk = true
      · by_cases hf : (env.files.any fun f => f.isNone) = true
        · exfalso
          simp [App.runExit, hp, hf] at hz
        · rw [Bool.not_eq_true] at hf
          by_cases hl : (env.files.any fun f => (f.getD []).any fun l => l.isNone) = true
          · exfalso
            simp [App.runExit, hp, hf, hl] at hz
          · rw [Bool.not_eq_true] at hl
            by_cases hw : env.writeConnectOk = true
            · by_cases hr : env.repliesOk = true
              · by_cases hm : env.mentionsOk = true
                · by_cases ha : env.airlineLabelsOk = true
                  · exact ⟨hp, hf, hl, hw, hr, hm, ha⟩
                  · exfalso
                    rw [Bool.not_eq_true] at ha
                    simp [App.runExit, hp, hf, hl, hw, hr, hm, ha] at hz
                · exfalso
                  rw [Bool.not_eq_true] at hm
                  simp [App.runExit, hp, hf, hl, hw, hr, hm] at hz
              · exfalso
                rw [Bool.not_eq_true] at hr
                simp [App.runExit, hp, hf, hl, hw, hr] at hz
            · exfalso
              rw [Bool.not_eq_true] at hw
              simp [App.runExit, hp, hf, hl, hw] at hz
      · exfalso
        rw [Bool.not_eq_true] at hp
        simp [App.runExit, hp] at hz
    · rintro ⟨hp, hf, hl, hw, hr, hm, ha⟩
      simp [App.runExit, hp, hf, hl, hw, hr, hm, ha]

/-- Witness for C9 amended: the all-good environment exits zero even though
every batch write fails, by the right-to-left direction of the exit-zero
characterization. -/
theorem c9_exit_policy_witness :
    App.runExit goodEnv (fun _ => false) = ExitOutcome.exitZero :=
  (c9_exit_policy goodEnv (fun _ => false) (fun _ => true)).2.2.2.2.2.2.2.2.mpr
    ⟨rfl, by decide, by decide, rfl, rfl, rfl, rfl⟩

/-! ## Store upsert lemmas (semantics of the query in run_insert_with_txn) -/

/-- The presence guard of MERGE is key membership. -/
theorem any_decide_iff_mem_keys {β : Type} (l : List (String × β)) (x : String) :
    (l.any fun p => decide (p.1 = x)) = true ↔ x ∈ keysOf l := by
  simp only [keysOf, List.any_eq_true, decide_eq_true_eq, List.mem_map]

/-- Lookup finds something exactly on the keys. -/
theorem lookupKey_isSome_iff_mem_keys {β : Type} (l : List (String × β))
    (x : String) : (lookupKey x l).isSome = true ↔ x ∈ keysOf l := by
  induction l with
  | nil => simp [lookupKey, keysOf]
  | cons p ps ih =>
    simp only [lookupKey, keysOf, List.map_cons, List.mem_cons] at ih ⊢
    by_cases h : p.1 = x
    · simp [h]
    · have hne : ¬x = p.1 := fun he => h he.symm
      simp [h, hne, ih]

/-- Lookup on a missing key is none. -/
theorem lookupKey_eq_none_of_not_mem {β : Type} {l : List (String × β)}
    {x : String} (h : x ∉ keysOf l) : lookupKey x l = none := by
  cases hs : lookupKey x l with
  | none => rfl
  | some w =>
    exact absurd ((lookupKey_isSome_iff_mem_keys l x).mp (by simp [hs])) h

/-- Lookup distributes over append, first list first. -/
theorem lookupKey_append {β : Type} (l1 l2 : List (String × β)) (x : String) :
    lookupKey x (l1 ++ l2) = (lookupKey x l1).or (lookupKey x l2) := by
  induction l1 with
  | nil => simp [lookupKey]
  | cons p ps ih =>
    by_cases h : p.1 = x <;> simp [lookupKey, h, ih]

/-- Lookup after the in-place replacement a present-key MERGE performs. -/
theorem lookupKey_map_rep {β : Type} (l : List (String × β)) (x key : String)
    (val : β) :
    lookupKey x (l.map fun p => if p.1 = key then (key, val) else p) =
      if x = key then (lookupKey key l).map (fun _ => val)
      else lookupKey x l := by
  induction l with
  | nil => by_cases hx : x = key <;> simp [lookupKey, hx]
  | cons p ps ih =>
    simp only [List.map_cons]
    by_cases ha : p.1 = key
    · by_cases hx : x = key
      · simp [lookupKey, ha, hx]
      · have hkx : ¬key = x := fun he => hx he.symm
        simp [lookupKey, ha, hx, hkx, ih]
    · by_cases hpx : p.1 = x
      · have hxk : ¬x = key := fun he => ha (hpx.trans he)
        simp [lookupKey, ha, hpx, hxk]
      · by_cases hx : x = key
        · subst hx
          simp [lookupKey, ha, hpx, ih]
        · simp [lookupKey, ha, hpx, hx, ih]

/-- Keys are unchanged by the in-place replacement. -/
theorem keysOf_map_rep {β : Type} (l : List (String × β)) (key : String)
    (val : β) :
    keysOf (l.map fun p => if p.1 = key then (key, val) else p) = keysOf l := by
  simp only [keysOf, List.map_map]
  apply List.map_congr_left
  intro p _
  by_cases h : p.1 = key
  · simp [Function.comp, h]
  · simp [Function.comp, h]

/-- Lookup after a MERGE-SET upsert: the written key now maps to the written
value, all other keys are untouched. -/
theorem lookupKey_upsert {β : Type} (l : List (String × β)) (key x : String)
    (val : β) :
    lookupKey x (upsertAssoc l key val) =
      if x = key then some val else lookupKey x l := by
  rw [upsertAssoc]
  by_cases h : (l.any fun p => decide (p.1 = key)) = true
  · rw [if_pos h, lookupKey_map_rep]
    by_cases hx : x = key
    · have hsome : (lookupKey key l).isSome = true :=
        (lookupKey_isSome_iff_mem_keys l key).mpr ((any_decide_iff_mem_keys l key).mp h)
      cases hs : lookupKey key l with
      | none => rw [hs] at hsome; simp at hsome
      | some w => simp [hx]
    · simp [hx]
  · rw [if_neg h, lookupKey_append]
    by_cases hx : x = key
    · have hnone : lookupKey x l = none := by
        apply lookupKey_eq_none_of_not_mem
        rw [hx]
        intro hm
        exact h ((any_decide_iff_mem_keys l key).mpr hm)
      simp only [hnone, lookupKey, hx]
      simp [hx ▸ hnone]
    · have hkx : ¬key = x := fun he => hx he.symm
      simp [lookupKey, hkx, hx]

/-- Keys after a MERGE-SET upsert. -/
theorem keysOf_upsert {β : Type} (l : List (String × β)) (key : String)
    (val : β) :
    keysOf (upsertAssoc l key val) =
      if key ∈ keysOf l then keysOf l else keysOf l ++ [key] := by
  rw [upsertAssoc]
  by_cases h : (l.any fun p => decide (p.1 = key)) = true
  · rw [if_pos h, keysOf_map_rep, if_pos ((any_decide_iff_mem_keys l key).mp h)]
  · rw [if_neg h, if_neg fun hm => h ((any_decide_iff_mem_keys l key).mpr hm)]
    simp [keysOf]

/-- A MERGE-SET upsert preserves key uniqueness. -/
theorem nodup_keys_upsert {β : Type} {l : List (String × β)} (key : String)
    (val : β) (h : (keysOf l).Nodup) :
    (keysOf (upsertAssoc l key val)).Nodup := by
  rw [keysOf_upsert]
  by_cases hm : key ∈ keysOf l
  · rw [if_pos hm]
    exact h
  · rw [if_neg hm]
    simp [List.nodup_append, h, hm]

/-- A MERGE-ON-CREATE merge preserves key uniqueness. -/
theorem nodup_keys_merge {β : Type} {l : List (String × β)} (key : String)
    (val : β) (h : (keysOf l).Nodup) :
    (keysOf (mergeOnCreate l key val)).Nodup := by
  rw [mergeOnCreate]
  by_cases hg : (l.any fun p => decide (p.1 = key)) = true
  · rw [if_pos hg]
    exact h
  · rw [if_neg hg]
    have hm : key ∉ keysOf l := fun hm => hg ((any_decide_iff_mem_keys l key).mpr hm)
    simp only [keysOf, List.map_append]
    simp [List.nodup_append, h, hm, keysOf] at hm ⊢
    exact ⟨h, hm⟩

/-- The written key is present after an upsert. -/
theorem mem_keys_upsert_self {β : Type} (l : List (String × β)) (key : String)
    (val : β) : key ∈ keysOf (upsertAssoc l key val) := by
  rw [keysOf_upsert]
  by_cases hm : key ∈ keysOf l
  · rw [if_pos hm]; exact hm
  · rw [if_neg hm]; simp

/-- Present keys stay present across an upsert. -/
theorem mem_keys_upsert_mono {β : Type} {l : List (String × β)} {x : String}
    (key : String) (val : β) (h : x ∈ keysOf l) :
    x ∈ keysOf (upsertAssoc l key val) := by
  rw [keysOf_upsert]
  by_cases hm : key ∈ keysOf l
  · rw [if_pos hm]; exact h
  · rw [if_neg hm]; exact List.mem_append_left _ h

/-- Present keys stay present across a whole batch of upserts. -/
theorem mem_keys_upsertFold_mono {β : Type} (key : TweetParams → String)
    (val : TweetParams → β) (b : List TweetParams) :
    ∀ (t : List (String × β)) (x : String), x ∈ keysOf t →
      x ∈ keysOf (upsertFold key val t b) := by
  induction b with
  | nil => intro t x h; exact h
  | cons r b ih =>
    intro t x h
    exact ih _ x (mem_keys_upsert_mono (key r) (val r) h)

/-- Every row's key is present after its batch of upserts ran. -/
theorem mem_keys_upsertFold {β : Type} (key : TweetParams → String)
    (val : TweetParams → β) (b : List TweetParams) :
    ∀ (t : List (String × β)) (r : TweetParams), r ∈ b →
      key r ∈ keysOf (upsertFold key val t b) := by
  induction b with
  | nil => intro t r h; simp at h
  | cons r0 b ih =>
    intro t r h
    rcases List.mem_cons.mp h with he | hm
    · subst he
      exact mem_keys_upsertFold_mono key val b _ _ (mem_keys_upsert_self _ _ _)
    · exact ih _ r hm

/-- When a key is already present, MERGE-SET is the in-place replacement. -/
theorem upsert_of_mem {β : Type} {l : List (String × β)} {key : String}
    (val : β) (h : key ∈ keysOf l) :
    upsertAssoc l key val = l.map fun p => if p.1 = key then (key, val) else p := by
  rw [upsertAssoc, if_pos ((any_decide_iff_mem_keys l key).mpr h)]

/-- Replaying a batch over a store that already contains every row's key is a
pointwise map of the per-entry replay. -/
theorem upsertFold_eq_map {β : Type} (key : TweetParams → String)
    (val : TweetParams → β) (b : List TweetParams) :
    ∀ (t : List (String × β)), (∀ r ∈ b, key r ∈ keysOf t) →
      upsertFold key val t b = t.map (rowUpd key val b) := by
  induction b with
  | nil =>
    intro t _
    have : t.map (rowUpd key val []) = t.map (fun p => p) :=
      List.map_congr_left (fun p _ => rfl)
    rw [upsertFold, List.foldl_nil, this, List.map_id']
  | cons r b ih =>
    intro t hall
    have hr : key r ∈ keysOf t := hall r (List.mem_cons_self r b)
    have hstep : upsertFold key val t (r :: b) =
        upsertFold key val
          (t.map fun p => if p.1 = key r then (key r, val r) else p) b := by
      simp only [upsertFold, List.foldl_cons]
      rw [upsert_of_mem (val r) hr]
    rw [hstep, ih]
    · rw [List.map_map]
      rfl
    · intro r' hr'
      have : keysOf (t.map fun p => if p.1 = key r then (key r, val r) else p) =
          keysOf t := keysOf_map_rep t (key r) (val r)
      rw [this]
      exact hall r' (List.mem_cons_of_mem r hr')

/-- Per-entry replay computes the last matching row's value. -/
theorem rowUpd_eq_lastRowBy {β : Type} (key : TweetParams → String)
    (val : TweetParams → β) (b : List TweetParams) :
    ∀ (x : String) (w : β),
      rowUpd key val b (x, w) = (x, ((lastRowBy key b x).map val).getD w) := by
  induction b with
  | nil => intro x w; simp [rowUpd, lastRowBy]
  | cons r b ih =>
    intro x w
    have hlast : lastRowBy key (r :: b) x =
        (lastRowBy key b x).or (if key r = x then some r else none) := by
      simp only [lastRowBy, List.reverse_cons, List.find?_append]
      congr 1
      by_cases hk : key r = x <;> simp [List.find?, hk]
    by_cases hx : x = key r
    · have hstep : rowUpd key val (r :: b) (x, w) = rowUpd key val b (x, val r) := by
        simp only [rowUpd, List.foldl_cons, if_pos hx]
        rw [← hx]
      rw [hstep, ih, hlast]
      cases hb : lastRowBy key b x with
      | none => simp [hx.symm]
      | some r' => simp
    · have hstep : rowUpd key val (r :: b) (x, w) = rowUpd key val b (x, w) := by
        simp only [rowUpd, List.foldl_cons, if_neg hx]
      rw [hstep, ih, hlast]
      have hk : ¬key r = x := fun he => hx he.symm
      cases hb : lastRowBy key b x with
      | none => simp [hk]
      | some r' => simp

/-- The last matching row of a batch extended by one row. -/
theorem lastRowBy_append_singleton (key : TweetParams → String)
    (b : List TweetParams) (r : TweetParams) (x : String) :
    lastRowBy key (b ++ [r]) x =
      if key r = x then some r else lastRowBy key b x := by
  simp only [lastRowBy, List.reverse_append, List.reverse_singleton, List.singleton_append]
  by_cases hk : key r = x <;> simp [List.find?, hk]

/-- The last matching row of a batch with one row put in front. -/
theorem lastRowBy_cons (key : TweetParams → String) (b : List TweetParams)
    (r : TweetParams) (x : String) :
    lastRowBy key (r :: b) x =
      (lastRowBy key b x).or (if key r = x then some r else none) := by
  simp only [lastRowBy, List.reverse_cons, List.find?_append]
  congr 1
  by_cases hk : key r = x <;> simp [List.find?, hk]

/-- The first matching row of a batch with one row put in front. -/
theorem firstRowBy_cons (key : TweetParams → String) (b : List TweetParams)
    (r : TweetParams) (x : String) :
    firstRowBy key (r :: b) x =
      if key r = x then some r else firstRowBy key b x := by
  by_cases hk : key r = x <;> simp [firstRowBy, List.find?, hk]

/-- Value saturation: after a batch runs, any stored entry whose key is
written by the batch holds the last matching row's value. -/
theorem upsertFold_mem_value {β : Type} (key : TweetParams → String)
    (val : TweetParams → β) (b : List TweetParams) :
    ∀ (t : List (String × β)) (x : String) (w : β) (r0 : TweetParams),
      (x, w) ∈ upsertFold key val t b → lastRowBy key b x = some r0 →
      w = val r0 := by
  induction b using List.reverseRecOn with
  | nil =>
    intro t x w r0 _ hlast
    simp [lastRowBy] at hlast
  | append_singleton b r ih =>
    intro t x w r0 hmem hlast
    rw [lastRowBy_append_singleton] at hlast
    have hstep : upsertFold key val t (b ++ [r]) =
        upsertAssoc (upsertFold key val t b) (key r) (val r) := by
      simp [upsertFold, List.foldl_append]
    rw [hstep, upsertAssoc] at hmem
    by_cases hg : ((upsertFold key val t b).any fun p => decide (p.1 = key r)) = true
    · rw [if_pos hg] at hmem
      obtain ⟨⟨x0, w0⟩, hmem0, heq⟩ := List.mem_map.mp hmem
      by_cases h0 : x0 = key r
      · rw [if_pos h0] at heq
        have hx : x = key r := by
          have := congrArg Prod.fst heq
          simpa using this.symm
        have hw : w = val r := by
          have := congrArg Prod.snd heq
          simpa using this.symm
        rw [if_pos hx.symm] at hlast
        cases hlast
        exact hw
      · rw [if_neg h0] at heq
        have hx : x0 = x := congrArg Prod.fst heq
        have hkx : ¬key r = x := fun he => h0 (hx.trans he.symm)
        rw [if_neg hkx] at hlast
        have hw : w0 = w := congrArg Prod.snd heq
        exact hw ▸ ih t x0 w0 r0 hmem0 (hx ▸ hlast)
    · rw [if_neg hg] at hmem
      rcases List.mem_append.mp hmem with hleft | hright
      · have hx : x ∈ keysOf (upsertFold key val t b) :=
          List.mem_map.mpr ⟨(x, w), hleft, rfl⟩
        have hkx : ¬key r = x := by
          intro he
          exact hg ((any_decide_iff_mem_keys _ (key r)).mpr (he ▸ hx))
        rw [if_neg hkx] at hlast
        exact ih t x w r0 hleft hlast
      · have heq : (x, w) = (key r, val r) := by simpa using hright
        have hx : x = key r := congrArg Prod.fst heq
        have hw : w = val r := congrArg Prod.snd heq
        rw [if_pos hx.symm] at hlast
        cases hlast
        exact hw

/-- Second application of the same batch of MERGE-SET upserts is the
identity on the node list. -/
theorem upsertFold_idem {β : Type} (key : TweetParams → String)
    (val : TweetParams → β) (b : List TweetParams) (t : List (String × β)) :
    upsertFold key val (upsertFold key val t b) b = upsertFold key val t b := by
  rw [upsertFold_eq_map key val b (upsertFold key val t b)
    (fun r hr => mem_keys_upsertFold key val b t r hr)]
  have hid : (upsertFold key val t b).map (rowUpd key val b) =
      (upsertFold key val t b).map (fun p => p) := by
    apply List.map_congr_left
    rintro ⟨x, w⟩ hp
    rw [rowUpd_eq_lastRowBy]
    cases hlast : lastRowBy key b x with
    | none => rfl
    | some r0 =>
      have := upsertFold_mem_value key val b t x w r0 hp hlast
      simp [this]
  rw [hid, List.map_id']

/-- Lookup after a batch of MERGE-SET upserts: the last matching row wins,
else the old value survives (always-SET semantics). -/
theorem lookupKey_upsertFold {β : Type} (key : TweetParams → String)
    (val : TweetParams → β) (b : List TweetParams) :
    ∀ (t : List (String × β)) (x : String),
      lookupKey x (upsertFold key val t b) =
        ((lastRowBy key b x).map val).or (lookupKey x t) := by
  induction b with
  | nil => intro t x; simp [upsertFold, lastRowBy]
  | cons r b ih =>
    intro t x
    have hstep : upsertFold key val t (r :: b) =
        upsertFold key val (upsertAssoc t (key r) (val r)) b := by
      simp [upsertFold]
    rw [hstep, ih, lookupKey_upsert, lastRowBy_cons]
    cases hb : lastRowBy key b x with
    | some r' => simp
    | none =>
      by_cases hx : x = key r
      · subst hx
        simp
      · have : ¬key r = x := fun he => hx he.symm
        simp [hx, this]

/-- When a key is already present, MERGE-ON-CREATE does nothing. -/
theorem merge_of_mem {β : Type} {l : List (String × β)} {key : String}
    (val : β) (h : key ∈ keysOf l) : mergeOnCreate l key val = l := by
  rw [mergeOnCreate, if_pos ((any_decide_iff_mem_keys l key).mpr h)]

/-- The written key is present after a MERGE-ON-CREATE. -/
theorem mem_keys_merge_self {β : Type} (l : List (String × β)) (key : String)
    (val : β) : key ∈ keysOf (mergeOnCreate l key val) := by
  rw [mergeOnCreate]
  by_cases hg : (l.any fun p => decide (p.1 = key)) = true
  · rw [if_pos hg]
    exact (any_decide_iff_mem_keys l key).mp hg
  · rw [if_neg hg]
    simp [keysOf]

/-- Present keys stay present across a MERGE-ON-CREATE. -/
theorem mem_keys_merge_mono {β : Type} {l : List (String × β)} {x : String}
    (key : String) (val : β) (h : x ∈ keysOf l) :
    x ∈ keysOf (mergeOnCreate l key val) := by
  rw [mergeOnCreate]
  by_cases hg : (l.any fun p => decide (p.1 = key)) = true
  · rw [if_pos hg]; exact h
  · rw [if_neg hg]
    simp only [keysOf, List.map_append]
    exact List.mem_append_left _ h

/-- Present keys stay present across a whole batch of merges. -/
theorem mem_keys_mergeFold_mono {β : Type} (key : TweetParams → String)
    (val : TweetParams → β) (b : List TweetParams) :
    ∀ (u : List (String × β)) (x : String), x ∈ keysOf u →
      x ∈ keysOf (mergeFold key val u b) := by
  induction b with
  | nil => intro u x h; exact h
  | cons r b ih =>
    intro u x h
    exact ih _ x (mem_keys_merge_mono (key r) (val r) h)

/-- Every row's key is present after its batch of merges ran. -/
theorem mem_keys_mergeFold {β : Type} (key : TweetParams → String)
    (val : TweetParams → β) (b : List TweetParams) :
    ∀ (u : List (String × β)) (r : TweetParams), r ∈ b →
      key r ∈ keysOf (mergeFold key val u b) := by
  induction b with
  | nil => intro u r h; simp at h
  | cons r0 b ih =>
    intro u r h
    rcases List.mem_cons.mp h with he | hm
    · subst he
      exact mem_keys_mergeFold_mono key val b _ _ (mem_keys_merge_self _ _ _)
    · exact ih _ r hm

/-- A batch of merges over a store already containing every row's key does
nothing (set-on-create semantics). -/
theorem mergeFold_of_all_mem {β : Type} (key : TweetParams → String)
    (val : TweetParams → β) (b : List TweetParams) :
    ∀ (u : List (String × β)), (∀ r ∈ b, key r ∈ keysOf u) →
      mergeFold key val u b = u := by
  induction b with
  | nil => intro u _; rfl
  | cons r b ih =>
    intro u hall
    have hstep : mergeFold key val u (r :: b) = mergeFold key val u b := by
      simp only [mergeFold, List.foldl_cons]
      rw [merge_of_mem (val r) (hall r (List.mem_cons_self r b))]
    rw [hstep]
    exact ih u fun r' hr' => hall r' (List.mem_cons_of_mem r hr')

/-- Second application of the same batch of merges is the identity. -/
theorem mergeFold_idem {β : Type} (key : TweetParams → String)
    (val : TweetParams → β) (b : List TweetParams) (u : List (String × β)) :
    mergeFold key val (mergeFold key val u b) b = mergeFold key val u b :=
  mergeFold_of_all_mem key val b _ fun r hr => mem_keys_mergeFold key val b u r hr

/-- Lookup after a MERGE-ON-CREATE: an existing value survives, a missing
key receives the created value. -/
theorem lookupKey_merge {β : Type} (l : List (String × β)) (key x : String)
    (val : β) :
    lookupKey x (mergeOnCreate l key val) =
      (lookupKey x l).or (if x = key then some val else none) := by
  rw [mergeOnCreate]
  by_cases hg : (l.any fun p => decide (p.1 = key)) = true
  · rw [if_pos hg]
    by_cases hx : x = key
    · subst hx
      have hsome : (lookupKey x l).isSome = true :=
        (lookupKey_isSome_iff_mem_keys l x).mpr ((any_decide_iff_mem_keys l x).mp hg)
      cases hs : lookupKey x l with
      | none => rw [hs] at hsome; simp at hsome
      | some w => simp
    · simp [hx]
  · rw [if_neg hg, lookupKey_append]
    congr 1
    by_cases hx : x = key
    · subst hx
      simp [lookupKey]
    · have : ¬key = x := fun he => hx he.symm
      simp [lookupKey, hx, this]

/-- Lookup after a batch of merges: the old value survives, otherwise the
first matching row wins (set-on-create semantics). -/
theorem lookupKey_mergeFold {β : Type} (key : TweetParams → String)
    (val : TweetParams → β) (b : List TweetParams) :
    ∀ (u : List (String × β)) (x : String),
      lookupKey x (mergeFold key val u b) =
        (lookupKey x u).or ((firstRowBy key b x).map val) := by
  induction b with
  | nil => intro u x; simp [mergeFold, firstRowBy]
  | cons r b ih =>
    intro u x
    have hstep : mergeFold key val u (r :: b) =
        mergeFold key val (mergeOnCreate u (key r) (val r)) b := by
      simp [mergeFold]
    rw [hstep, ih, lookupKey_merge, firstRowBy_cons, Option.or_assoc]
    congr 1
    by_cases hx : x = key r
    · subst hx
      simp
    · have : ¬key r = x := fun he => hx he.symm
      cases hb : firstRowBy key b x <;> simp [hx, this]

/-- A whole batch of upserts preserves key uniqueness. -/
theorem nodup_keys_upsertFold {β : Type} (key : TweetParams → String)
    (val : TweetParams → β) (b : List TweetParams) :
    ∀ (t : List (String × β)), (keysOf t).Nodup →
      (keysOf (upsertFold key val t b)).Nodup := by
  induction b with
  | nil => intro t h; exact h
  | cons r b ih =>
    intro t h
    exact ih _ (nodup_keys_upsert (key r) (val r) h)

/-- A whole batch of merges preserves key uniqueness. -/
theorem nodup_keys_mergeFold {β : Type} (key : TweetParams → String)
    (val : TweetParams → β) (b : List TweetParams) :
    ∀ (u : List (String × β)), (keysOf u).Nodup →
      (keysOf (mergeFold key val u b)).Nodup := by
  induction b with
  | nil => intro u h; exact h
  | cons r b ih =>
    intro u h
    exact ih _ (nodup_keys_merge (key r) (val r) h)

/-! ## Component decomposition of run_insert_with_txn -/

/-- The Tweet-node component of the transaction is a batch of MERGE-SET
upserts keyed by tweet id. -/
theorem run_insert_tweets (b : List TweetParams) :
    ∀ (g : GraphState), (run_insert_with_txn g b).tweets =
      upsertFold (fun r => r.id) tweetPropsOf g.tweets b := by
  induction b with
  | nil => intro g; rfl
  | cons r b ih =>
    intro g
    simp only [run_insert_with_txn, List.foldl_cons] at ih ⊢
    rw [ih]
    rfl

/-- The User-node component of the transaction is a batch of
MERGE-ON-CREATE merges keyed by user id. -/
theorem run_insert_users (b : List TweetParams) :
    ∀ (g : GraphState), (run_insert_with_txn g b).users =
      mergeFold (fun r => r.userId) userPropsOf g.users b := by
  induction b with
  | nil => intro g; rfl
  | cons r b ih =>
    intro g
    simp only [run_insert_with_txn, List.foldl_cons] at ih ⊢
    rw [ih]
    rfl

/-- The POSTED_BY component of the transaction appends one freshly CREATEd
edge per row, unconditionally. -/
theorem run_insert_edges (b : List TweetParams) :
    ∀ (g : GraphState), (run_insert_with_txn g b).posted_by =
      g.posted_by ++ b.map fun r => (r.id, r.userId) := by
  induction b with
  | nil => intro g; simp [run_insert_with_txn]
  | cons r b ih =>
    intro g
    simp only [run_insert_with_txn, List.foldl_cons] at ih ⊢
    rw [ih]
    simp [applyRow]

/-- C1 counterexample: one concrete single-record batch applied twice does
not leave the graph unchanged — the second application CREATEs a duplicate
POSTED_BY edge (the query merges nodes but CREATEs edges), so re-applying a
retried-but-actually-committed transaction duplicates authorship edges. -/
theorem c1_counterexample :
    run_insert_with_txn
        (run_insert_with_txn GraphState.empty (prepare_batch_parameters [sampleTweet]))
        (prepare_batch_parameters [sampleTweet]) ≠
      run_insert_with_txn GraphState.empty (prepare_batch_parameters [sampleTweet]) ∧
    (run_insert_with_txn
        (run_insert_with_txn GraphState.empty (prepare_batch_parameters [sampleTweet]))
        (prepare_batch_parameters [sampleTweet])).posted_by =
      [("t1", "u1"), ("t1", "u1")] ∧
    (run_insert_with_txn GraphState.empty
        (prepare_batch_parameters [sampleTweet])).posted_by = [("t1", "u1")] := by
  decide

/-- C1 amended: re-applying the same batch transaction is idempotent on the
node sets — the Tweet and User node lists are unchanged, key uniqueness is
preserved (no duplicate post or author nodes), Tweet properties hold the
batch's last write for their key (always-SET) and User properties keep their
first write (set-on-create) — but it is NOT idempotent on edges: every
re-application appends one more POSTED_BY edge per row, duplicating the
authorship edges. -/
theorem c1_reapply_same_batch (g : GraphState) (b : List TweetParams)
    (hT : (keysOf g.tweets).Nodup) (hU : (keysOf g.users).Nodup) :
    (run_insert_with_txn (run_insert_with_txn g b) b).tweets =
      (run_insert_with_txn g b).tweets ∧
    (run_insert_with_txn (run_insert_with_txn g b) b).users =
      (run_insert_with_txn g b).users ∧
    (run_insert_with_txn (run_insert_with_txn g b) b).posted_by =
      (run_insert_with_txn g b).posted_by ++ (b.map fun r => (r.id, r.userId)) ∧
    (keysOf (run_insert_with_txn g b).tweets).Nodup ∧
    (keysOf (run_insert_with_txn g b).users).Nodup ∧
    (∀ x, lookupKey x (run_insert_with_txn g b).tweets =
      ((lastRowT b x).map tweetPropsOf).or (lookupKey x g.tweets)) ∧
    (∀ x, lookupKey x (run_insert_with_txn g b).users =
      (lookupKey x g.users).or ((firstRowU b x).map userPropsOf)) := by
  refine ⟨?_, ?_, ?_, ?_, ?_, ?_, ?_⟩
  · rw [run_insert_tweets, run_insert_tweets]
    exact upsertFold_idem _ _ b g.tweets
  · rw [run_insert_users, run_insert_users]
    exact mergeFold_idem _ _ b g.users
  · rw [run_insert_edges]
  · rw [run_insert_tweets]
    exact nodup_keys_upsertFold _ _ b g.tweets hT
  · rw [run_insert_users]
    exact nodup_keys_mergeFold _ _ b g.users hU
  · intro x
    rw [run_insert_tweets]
    exact lookupKey_upsertFold _ _ b g.tweets x
  · intro x
    rw [run_insert_users]
    exact lookupKey_mergeFold _ _ b g.users x

/-- Witness for C1 amended at a concrete single-record batch over the empty
(hence duplicate-free) store: node components unchanged by the second
application, edges extended by one duplicate. -/
theorem c1_reapply_same_batch_witness :
    (run_insert_with_txn
        (run_insert_with_txn GraphState.empty (prepare_batch_parameters [sampleTweet]))
        (prepare_batch_parameters [sampleTweet])).tweets =
      (run_insert_with_txn GraphState.empty
        (prepare_batch_parameters [sampleTweet])).tweets ∧
    (run_insert_with_txn
        (run_insert_with_txn GraphState.empty (prepare_batch_parameters [sampleTweet]))
        (prepare_batch_parameters [sampleTweet])).users =
      (run_insert_with_txn GraphState.empty
        (prepare_batch_parameters [sampleTweet])).users ∧
    (run_insert_with_txn
        (run_insert_with_txn GraphState.empty (prepare_batch_parameters [sampleTweet]))
        (prepare_batch_parameters [sampleTweet])).posted_by =
      (run_insert_with_txn GraphState.empty
          (prepare_batch_parameters [sampleTweet])).posted_by ++
        ((prepare_batch_parameters [sampleTweet]).map fun r => (r.id, r.userId)) := by
  have h := c1_reapply_same_batch GraphState.empty
    (prepare_batch_parameters [sampleTweet]) (by decide) (by decide)
  exact ⟨h.1, h.2.1, h.2.2.1⟩
